import Mathlib

/-!
# Verification of the deep-research MCP server dispatcher (src/mcp-server.ts)

Shallow embedding of the request dispatcher of `src/mcp-server.ts`:
cache-key derivation (`hashKey`, JSON serialization, SHA-256), the
TTL/LRU result cache, the tool handler (`deepResearch.run`), the
delivery policy (inline vs GCS-offloaded), the TTL clamping of
`MCP_CACHE_TTL_MS`, the `apiKeyAuth` middleware, and the SSE session
registry.  External effects (the research pipeline, file reads, GCS
uploads) are passed in as explicit `Except` outcomes; machine integers
are `Nat` with explicit `% 2^32` where overflow matters.
-/

namespace DeepResearch

/-! ## JSON string serialization (model of `JSON.stringify` on the key object)

`hashKey` (mcp-server.ts:83-89) hashes `JSON.stringify(obj)` where the
handler (line 115) builds `{ query, depth, breadth, existingLearnings }`
in that fixed property order; `undefined` fields are omitted by
`JSON.stringify`.  We model the produced character sequence exactly:
strings are quoted with `"`, with `"`, `\` and control characters
escaped the way `JSON.stringify` escapes them. -/

/-- Lowercase hex digit, as used by `JSON.stringify`'s `\u00XX` escapes
and by `digest('hex')`. -/
def hexDigitChar (n : Nat) : Char :=
  if n < 10 then Char.ofNat (48 + n) else Char.ofNat (87 + n)

/-- The escape of one character inside a JSON string literal, following
`JSON.stringify`: `"` and `\` get a backslash escape, the control
characters BS, TAB, LF, FF, CR get their short escapes, the remaining
control characters (< 0x20) get `\u00XX`, everything else is literal. -/
def escChar (c : Char) : List Char :=
  if c = '"' then ['\\', '"']
  else if c = '\\' then ['\\', '\\']
  else if c = '\x08' then ['\\', 'b']
  else if c = '\x09' then ['\\', 't']
  else if c = '\x0a' then ['\\', 'n']
  else if c = '\x0c' then ['\\', 'f']
  else if c = '\x0d' then ['\\', 'r']
  else if c.toNat < 32 then
    ['\\', 'u', '0', '0', hexDigitChar (c.toNat / 16), hexDigitChar (c.toNat % 16)]
  else [c]

/-- Escaped body of a JSON string literal. -/
def escList (l : List Char) : List Char := l.flatMap escChar

/-- A JSON string literal: quote, escaped body, quote. -/
def jsonQuote (s : String) : List Char := '"' :: (escList s.data ++ ['"'])

/-- Little-endian decimal digit characters of `n`; the fuel argument
makes the recursion structural so that it reduces in the kernel. -/
def natCharsAux : Nat → Nat → List Char
  | 0, _ => []
  | _ + 1, 0 => []
  | fuel + 1, n => Char.ofNat (48 + n % 10) :: natCharsAux fuel (n / 10)

/-- Decimal digit characters of a natural number, most significant first
(model of JS number-to-string for the integer depth/breadth fields). -/
def natChars (n : Nat) : List Char :=
  if n = 0 then ['0'] else (natCharsAux n n).reverse

/-- Decimal string of a natural number. -/
def natStr (n : Nat) : String := String.mk (natChars n)

/-- The comma-joined elements of a JSON array of strings. -/
def joinElems : List String → List Char
  | [] => []
  | [s] => jsonQuote s
  | s :: rest => jsonQuote s ++ (',' :: joinElems rest)

/-- A JSON array of strings. -/
def jsonArray (ls : List String) : List Char := '[' :: (joinElems ls ++ [']'])

/-- Character sequence of
`JSON.stringify({ query, depth, breadth, existingLearnings })`
(mcp-server.ts:115): fixed property order, `undefined` depth/breadth
omitted. -/
def keyObjectChars (query : String) (depth breadth : Option Nat)
    (existingLearnings : List String) : List Char :=
  '\x7b' :: ("\"query\":".data ++ jsonQuote query)
    ++ (match depth with
        | none => []
        | some n => ",\"depth\":".data ++ natChars n)
    ++ (match breadth with
        | none => []
        | some n => ",\"breadth\":".data ++ natChars n)
    ++ (",\"existingLearnings\":".data ++ jsonArray existingLearnings)
    ++ ['\x7d']

/-! ## UTF-8 byte length (model of `Buffer.byteLength(content, 'utf8')`) -/

/-- UTF-8 encoding of one Unicode scalar value, as a list of bytes. -/
def utf8CharBytes (c : Char) : List Nat :=
  let n := c.toNat
  if n < 128 then [n]
  else if n < 2048 then [192 + n / 64, 128 + n % 64]
  else if n < 65536 then [224 + n / 4096, 128 + (n / 64) % 64, 128 + n % 64]
  else [240 + n / 262144, 128 + (n / 4096) % 64, 128 + (n / 64) % 64, 128 + n % 64]

/-- UTF-8 bytes of a string. -/
def utf8Bytes (s : String) : List Nat := s.data.flatMap utf8CharBytes

/-- `Buffer.byteLength(s, 'utf8')` (mcp-server.ts:161). -/
def utf8Len (s : String) : Nat := (utf8Bytes s).length

/-! ## SHA-256 (model of `createHash('sha256') ... digest('hex')`) -/

/-- 32-bit right rotation. -/
def rotr32 (x n : Nat) : Nat := ((x >>> n) ||| (x <<< (32 - n))) % 4294967296

/-- The 64 SHA-256 round constants. -/
def sha256K : List Nat :=
  [1116352408, 1899447441, 3049323471, 3921009573, 961987163, 1508970993,
   2453635748, 2870763221, 3624381080, 310598401, 607225278, 1426881987,
   1925078388, 2162078206, 2614888103, 3248222580, 3835390401, 4022224774,
   264347078, 604807628, 770255983, 1249150122, 1555081692, 1996064986,
   2554220882, 2821834349, 2952996808, 3210313671, 3336571891, 3584528711,
   113926993, 338241895, 666307205, 773529912, 1294757372, 1396182291,
   1695183700, 1986661051, 2177026350, 2456956037, 2730485921, 2820302411,
   3259730800, 3345764771, 3516065817, 3600352804, 4094571909, 275423344,
   430227734, 506948616, 659060556, 883997877, 958139571, 1322822218,
   1537002063, 1747873779, 1955562222, 2024104815, 2227730452, 2361852424,
   2428436474, 2756734187, 3204031479, 3329325298]

/-- The SHA-256 initial hash state. -/
def sha256H0 : List Nat :=
  [1779033703, 3144134277, 1013904242, 2773480762, 1359893119, 2600822924,
   528734635, 1541459225]

/-- SHA-256 padding: append `0x80`, zero bytes, then the 64-bit
big-endian bit length, to a multiple of 64 bytes. -/
def sha256Pad (msg : List Nat) : List Nat :=
  let len := msg.length
  let bitLen := 8 * len
  let zeros := (64 - ((len + 9) % 64)) % 64
  msg ++ 128 :: List.replicate zeros 0 ++
    [(bitLen >>> 56) % 256, (bitLen >>> 48) % 256, (bitLen >>> 40) % 256,
     (bitLen >>> 32) % 256, (bitLen >>> 24) % 256, (bitLen >>> 16) % 256,
     (bitLen >>> 8) % 256, bitLen % 256]

/-- Split a byte list into 64-byte blocks; the fuel argument makes the
recursion structural so that it reduces in the kernel. -/
def toBlocksAux : Nat → List Nat → List (List Nat)
  | 0, _ => []
  | _ + 1, [] => []
  | fuel + 1, l => l.take 64 :: toBlocksAux fuel (l.drop 64)

/-- Split a byte list into 64-byte blocks. -/
def toBlocks (l : List Nat) : List (List Nat) := toBlocksAux l.length l

/-- Combine bytes into big-endian 32-bit words. -/
def bytesToWords : List Nat → List Nat
  | a :: b :: c :: d :: rest => (((a * 256 + b) * 256 + c) * 256 + d) :: bytesToWords rest
  | _ => []

/-- Extend the 16 message words to the 64-word schedule. -/
def sha256Extend (w : List Nat) : List Nat :=
  (List.range 48).foldl (fun acc _ =>
    let n := acc.length
    let w15 := acc.getD (n - 15) 0
    let w2 := acc.getD (n - 2) 0
    let w16 := acc.getD (n - 16) 0
    let w7 := acc.getD (n - 7) 0
    let s0 := (rotr32 w15 7) ^^^ (rotr32 w15 18) ^^^ (w15 >>> 3)
    let s1 := (rotr32 w2 17) ^^^ (rotr32 w2 19) ^^^ (w2 >>> 10)
    acc ++ [(w16 + s0 + w7 + s1) % 4294967296]) w

/-- One SHA-256 compression round over the 64-word schedule. -/
def sha256Compress (hs : List Nat) (w : List Nat) : List Nat :=
  let final := (List.zip sha256K w).foldl (fun st kw =>
    match st with
    | [a, b, c, d, e, f, g, hh] =>
      let s1 := (rotr32 e 6) ^^^ (rotr32 e 11) ^^^ (rotr32 e 25)
      let ch := (e &&& f) ^^^ ((e ^^^ 4294967295) &&& g)
      let t1 := (hh + s1 + ch + kw.1 + kw.2) % 4294967296
      let s0 := (rotr32 a 2) ^^^ (rotr32 a 13) ^^^ (rotr32 a 22)
      let mj := (a &&& b) ^^^ (a &&& c) ^^^ (b &&& c)
      let t2 := (s0 + mj) % 4294967296
      [(t1 + t2) % 4294967296, a, b, c, (d + t1) % 4294967296, e, f, g]
    | other => other) hs
  (List.zip hs final).map (fun p => (p.1 + p.2) % 4294967296)

/-- SHA-256 digest of a byte list, as eight 32-bit words. -/
def sha256Words (msg : List Nat) : List Nat :=
  (toBlocks (sha256Pad msg)).foldl
    (fun hs block => sha256Compress hs (sha256Extend (bytesToWords block))) sha256H0

/-- Eight lowercase hex digits of a 32-bit word. -/
def wordToHex (w : Nat) : List Char :=
  [hexDigitChar ((w >>> 28) % 16), hexDigitChar ((w >>> 24) % 16),
   hexDigitChar ((w >>> 20) % 16), hexDigitChar ((w >>> 16) % 16),
   hexDigitChar ((w >>> 12) % 16), hexDigitChar ((w >>> 8) % 16),
   hexDigitChar ((w >>> 4) % 16), hexDigitChar (w % 16)]

/-- `createHash('sha256').update(s).digest('hex')` on a UTF-8 string. -/
def sha256Hex (s : String) : String :=
  String.mk ((sha256Words (utf8Bytes s)).flatMap wordToHex)

/-! ## Tool input and cache key (mcp-server.ts:104-115)

The tool's input schema also accepts `goal` and `flags`, but the handler
destructures only `query`, `depth`, `breadth`, `existingLearnings`
(line 113, with `existingLearnings = []` as default), so only those four
fields reach the cache key and the pipeline. -/

/-- The optional `flags` object of the input schema (line 110). -/
structure Flags where
  grounding : Option Bool
  urlContext : Option Bool
deriving DecidableEq

/-- A parsed tool-call input (schema lines 104-111).  `depth`/`breadth`
are modelled as naturals (the schema restricts them to 1..5). -/
structure ToolInput where
  query : String
  depth : Option Nat
  breadth : Option Nat
  existingLearnings : List String
  goal : Option String
  flags : Option Flags
deriving DecidableEq

/-- `JSON.stringify({ query, depth, breadth, existingLearnings })`, the
canonical serialization hashed at line 115. -/
def stringifyKeyObject (i : ToolInput) : String :=
  String.mk (keyObjectChars i.query i.depth i.breadth i.existingLearnings)

/-- `hashKey` (mcp-server.ts:83-89): SHA-256 hex digest of the JSON
serialization.  The `catch` fallback to `String(obj)` is unreachable
here because serialization of this plain record never throws. -/
def hashKey (i : ToolInput) : String := sha256Hex (stringifyKeyObject i)

/-! ## Research pipeline interface and result shape (mcp-server.ts:61-74, 128-138) -/

/-- Output of the external `research` pipeline (§6 of the design:
`{ learnings, visitedUrls, reportPath?, content? }`). -/
structure ResearchOutput where
  learnings : List String
  visitedUrls : List String
  reportPath : Option String
  content : Option String
deriving DecidableEq

/-- The arguments the handler passes to `research` (lines 128-138):
`depth ?? 2`, `breadth ?? 2`. -/
structure ResearchArgs where
  query : String
  depth : Nat
  breadth : Nat
  existingLearnings : List String
deriving DecidableEq

/-- Arguments of the pipeline invocation for a given tool input. -/
def researchArgsOf (i : ToolInput) : ResearchArgs :=
  ⟨i.query, i.depth.getD 2, i.breadth.getD 2, i.existingLearnings⟩

/-- `metadata.stats` of `MCPResearchResult` (lines 66-69). -/
structure Stats where
  totalLearnings : Nat
  totalSources : Nat
deriving DecidableEq

/-- `metadata` of `MCPResearchResult` (lines 63-72). -/
structure ResultMetadata where
  learnings : List String
  visitedUrls : List String
  stats : Stats
  reportUrl : Option String
  reportSizeKB : Option Nat
deriving DecidableEq

/-- One `{ type: "text", text }` content block (line 62). -/
structure ContentBlock where
  type : String
  text : String
deriving DecidableEq

/-- The `MCPResearchResult` interface (lines 61-74). -/
structure MCPResearchResult where
  content : List ContentBlock
  metadata : ResultMetadata
deriving DecidableEq

/-! ## Result cache (mcp-server.ts:77-81, lru-cache with max 50 and ttl)

The cache state is an association list, most recently inserted first,
each entry carrying its insertion time.  `lru-cache` treats an entry as
stale when `now - start > ttl` and a fresh `get` returns the stored
value; `set` replaces any entry with the same key and capacity-evicts
the least recently used entry beyond `max = 50`. -/

abbrev CacheState := List (String × Nat × MCPResearchResult)

/-- `deepResearchCache.get(key)` at time `now`: the stored value if the
entry exists and its age does not exceed `ttl`. -/
def cacheGet (st : CacheState) (key : String) (now ttl : Nat) : Option MCPResearchResult :=
  match st.find? (fun e => e.1 == key) with
  | some e => if now - e.2.1 > ttl then none else some e.2.2
  | none => none

/-- `deepResearchCache.set(key, v)` at time `now` (line 254): insert as
most recent, replacing any previous entry for `key`, keeping at most
`max = 50` entries. -/
def cacheSet (st : CacheState) (key : String) (now : Nat) (v : MCPResearchResult) : CacheState :=
  ((key, now, v) :: st.filter (fun e => e.1 != key)).take 50

/-! ## The deepResearch.run handler (mcp-server.ts:113-265) -/

/-- JS truthiness of a possibly-absent string (`undefined` and `""` are
falsy). -/
def truthyOpt : Option String → Bool
  | none => false
  | some s => s != ""

/-- Report content extraction (lines 146-159): use the pipeline's
in-memory `content` if truthy; otherwise, if a `reportPath` is present,
read the file (`fileRead` outcome), substituting
`"Error reading report file."` if the read throws; if the content is
still falsy, substitute the placeholder
`"# Error: No report content generated."`. -/
def reportContentOf (res : ResearchOutput) (fileRead : Except Unit String) : String :=
  let rc0 := res.content
  let rc1 :=
    if !truthyOpt rc0 && res.reportPath.isSome then
      match fileRead with
      | .ok s => some s
      | .error _ => some "Error reading report file."
    else rc0
  if !truthyOpt rc1 then "# Error: No report content generated." else rc1.getD ""

/-- `Math.round(Buffer.byteLength(content, 'utf8') / 1024)` (line 161):
round-half-up of `bytes / 1024`. -/
def reportSizeKBOf (bytes : Nat) : Nat := (bytes + 512) / 1024

/-- The delivery decision (line 166):
`isHttpMode || reportSizeKB > SIZE_THRESHOLD_KB` with the 50 KB
threshold. -/
def useUrlMode (isHttpMode : Bool) (reportSizeKB : Nat) : Bool :=
  isHttpMode || decide (reportSizeKB > 50)

/-- The explicit error marker for a failed GCS upload (line 181). -/
def uploadErrorMarker : String := "ERROR: Failed to upload report to cloud storage"

/-- `suggestedFilename` (line 185):
`query.slice(0, 40).replace(/[^a-zA-Z0-9]/g, '_').toLowerCase() + '_report.md'`. -/
def isAsciiAlphanum (c : Char) : Bool :=
  (65 ≤ c.toNat && c.toNat ≤ 90) || (97 ≤ c.toNat && c.toNat ≤ 122) ||
    (48 ≤ c.toNat && c.toNat ≤ 57)

/-- The suggested local filename derived from the query. -/
def suggestedFilenameOf (query : String) : String :=
  String.mk (((query.data.take 40).map
    (fun c => if isAsciiAlphanum c then c else '_')).map Char.toLower) ++ "_report.md"

/-- `sizeNote` (lines 187-189): present only outside HTTP mode. -/
def sizeNoteOf (isHttpMode : Bool) (kb : Nat) : String :=
  if !isHttpMode then
    "\n\n> **Note:** Report size (" ++ natStr kb ++
      " KB) exceeds 50 KB threshold, using URL mode for reliability."
  else ""

/-- The URL-mode content block text (template literal, lines 195-216). -/
def urlModeText (kb : Nat) (reportUrl sizeNote fn : String) : String :=
  "## 🚀 RESEARCH COMPLETE\n\n**Report Size:** " ++ natStr kb ++
    " KB\n**Full Report URL:** " ++ reportUrl ++ sizeNote ++
    "\n\n---\n\n## ⚠️ ACTION REQUIRED: Download and save the full report\n\nThe complete report (" ++
    natStr kb ++
    " KB) has been uploaded to cloud storage.\n\n**You MUST download and save it locally:**\n\n```bash\ncurl -L '" ++
    reportUrl ++ "' -o " ++ fn ++
    "\n```\n\n**Suggested filename:** `" ++ fn ++
    "`\n\n---\n\nDownload the file above to get the complete research output."

/-- The `catch`-all error result (lines 257-264). -/
def errorResult (msg : String) : MCPResearchResult :=
  ⟨[⟨"text", "Error during deep research: " ++ msg⟩],
   ⟨[], [], ⟨0, 0⟩, none, none⟩⟩

/-- The result built on the success path (lines 146-251): extract the
report content, compute its size, decide the delivery mode, and build
either the URL-mode result (upload outcome `upload`, with the error
marker on upload failure, lines 170-229) or the inline result
(lines 230-251). -/
def successResult (isHttpMode : Bool) (query : String) (res : ResearchOutput)
    (fileRead upload : Except Unit String) : MCPResearchResult :=
  let reportContent := reportContentOf res fileRead
  let kb := reportSizeKBOf (utf8Len reportContent)
  if useUrlMode isHttpMode kb then
    let reportUrl :=
      match upload with
      | .ok u => u
      | .error _ => uploadErrorMarker
    ⟨[⟨"text", urlModeText kb reportUrl (sizeNoteOf isHttpMode kb) (suggestedFilenameOf query)⟩],
     ⟨res.learnings, res.visitedUrls, ⟨res.learnings.length, res.visitedUrls.length⟩,
      some reportUrl, some kb⟩⟩
  else
    ⟨[⟨"text", "## 🚀 RESEARCH COMPLETE\n\n" ++ reportContent⟩],
     ⟨res.learnings, res.visitedUrls, ⟨res.learnings.length, res.visitedUrls.length⟩,
      none, some kb⟩⟩

/-- Observable outcome of one handler invocation: the returned result,
the cache state afterwards, and the pipeline invocation (if any) with
its arguments. -/
structure StepOut where
  result : MCPResearchResult
  state : CacheState
  invoked : Option ResearchArgs
deriving DecidableEq

/-- The `deepResearch.run` handler (lines 113-265) as a state-passing
function.  External effects enter as explicit outcomes: `pipeline` is
the `research(...)` call (`.error` models a thrown exception caught at
line 257), `fileRead` the `readFileSync` fallback, `upload` the GCS
upload. -/
def handleRun (ttl : Nat) (isHttpMode : Bool) (st : CacheState) (now : Nat)
    (inp : ToolInput) (pipeline : Except String ResearchOutput)
    (fileRead upload : Except Unit String) : StepOut :=
  match cacheGet st (hashKey inp) now ttl with
  | some cached => ⟨cached, st, none⟩
  | none =>
    match pipeline with
    | .error e => ⟨errorResult e, st, some (researchArgsOf inp)⟩
    | .ok res =>
      let finalResult := successResult isHttpMode inp.query res fileRead upload
      ⟨finalResult, cacheSet st (hashKey inp) now finalResult, some (researchArgsOf inp)⟩

/-! ## TTL configuration (mcp-server.ts:77)

`Math.max(1000, Math.min(86_400_000, parseInt(env || '600000', 10)))`.
JS `parseInt` yields `NaN` on a non-numeric string, and both `Math.min`
and `Math.max` propagate `NaN`; `NaN` is modelled as `none`. -/

/-- JS whitespace accepted (and skipped) by `parseInt`. -/
def isJsWhitespace (c : Char) : Bool :=
  c = ' ' || c = '\t' || c = '\n' || c = '\x0d' || c = '\x0b' || c = '\x0c'

/-- `parseInt(s, 10)`: skip whitespace, optional sign, then the longest
leading run of decimal digits; `NaN` (= `none`) if there is none. -/
def parseIntJS (s : String) : Option Int :=
  let l := s.data.dropWhile isJsWhitespace
  let signAndRest : Int × List Char :=
    match l with
    | '-' :: rest => (-1, rest)
    | '+' :: rest => (1, rest)
    | _ => (1, l)
  let ds := signAndRest.2.takeWhile (fun c => 48 ≤ c.toNat && c.toNat ≤ 57)
  if ds.isEmpty then none
  else some (signAndRest.1 * (ds.foldl (fun acc c => acc * 10 + (c.toNat - 48)) 0 : Nat))

/-- `Math.min(a, x)` with `NaN` propagation. -/
def jsMinNaN (a : Int) (x : Option Int) : Option Int := x.map (min a)

/-- `Math.max(a, x)` with `NaN` propagation. -/
def jsMaxNaN (a : Int) (x : Option Int) : Option Int := x.map (max a)

/-- `MCP_CACHE_TTL_MS` (line 77) as a function of the
`PROVIDER_CACHE_TTL_MS` environment variable (`none` = unset; the `||`
fallback also fires on the falsy empty string). -/
def mcpCacheTtlMs (env : Option String) : Option Int :=
  let s :=
    match env with
    | none => "600000"
    | some v => if v = "" then "600000" else v
  jsMaxNaN 1000 (jsMinNaN 86400000 (parseIntJS s))

/-! ## API-key authentication middleware (mcp-server.ts:298-312) -/

/-- Outcome of an express middleware: pass through or short-circuit. -/
inductive AuthOutcome
  | next
  | unauthorized
deriving DecidableEq

/-- JS `a || b` on possibly-absent strings (`undefined`/`""` falsy). -/
def jsOrStr (a b : Option String) : Option String := if truthyOpt a then a else b

/-- `authz.replace('Bearer ', '')`: remove the first occurrence of the
pattern, if any. -/
def removeBearerOnce : List Char → List Char
  | [] => []
  | c :: rest =>
    if "Bearer ".data.isPrefixOf (c :: rest) then (c :: rest).drop 7
    else c :: removeBearerOnce rest

/-- `req.headers['x-api-key'] || req.headers['authorization']?.replace('Bearer ', '')`
(line 306). -/
def providedKeyOf (xApiKey authz : Option String) : Option String :=
  jsOrStr xApiKey (authz.map (fun a => String.mk (removeBearerOnce a.data)))

/-- `apiKeyAuth` (lines 298-312): no configured key (unset or empty)
means no auth; otherwise the provided key must strictly equal the
configured key. -/
def apiKeyAuth (cfgKey xApiKey authz : Option String) : AuthOutcome :=
  if !truthyOpt cfgKey then .next
  else
    match providedKeyOf xApiKey authz with
    | some p => if p = cfgKey.getD "" then .next else .unauthorized
    | none => .unauthorized

/-- An HTTP response: status code and JSON body. -/
inductive HttpResponse
  | json (status : Nat) (body : String)
deriving DecidableEq

/-- `POST /mcp` (line 331): `apiKeyAuth` gates the dispatcher; the
boolean records whether the request reached the dispatcher. -/
def postMcp (cfgKey xApiKey authz : Option String) (dispatcherResponse : HttpResponse) :
    HttpResponse × Bool :=
  match apiKeyAuth cfgKey xApiKey authz with
  | .unauthorized => (.json 401 "\x7b\"error\":\"Unauthorized\"\x7d", false)
  | .next => (dispatcherResponse, true)

/-- `GET /health` (lines 326-328): registered without the auth
middleware, so it ignores the configured key and all headers. -/
def getHealth (_cfgKey _xApiKey _authz : Option String) : HttpResponse :=
  .json 200 "\x7b\"status\":\"ok\",\"mode\":\"http\",\"version\":\"1.0.0\"\x7d"

/-! ## SSE session registry (mcp-server.ts:370-399) -/

/-- The `sseTransports` map: session id to transport handle (abstracted
as a number), most recently registered first. -/
abbrev SessionRegistry := List (String × Nat)

/-- Opening `GET /sse` (lines 372-389): register the transport under the
freshly generated `randomUUID()`; `Map.set` replaces any previous entry
with the same id. -/
def sseOpen (m : SessionRegistry) (sessionId : String) (transport : Nat) : SessionRegistry :=
  (sessionId, transport) :: m.filter (fun e => e.1 != sessionId)

/-- The `close` handler (lines 383-388): `sseTransports.delete(sessionId)`. -/
def sseClose (m : SessionRegistry) (sessionId : String) : SessionRegistry :=
  m.filter (fun e => e.1 != sessionId)

/-- Outcome of `POST /messages`: 404 or routed to a session's transport. -/
inductive MessagesResponse
  | notFound
  | routed (transport : Nat)
deriving DecidableEq

/-- `POST /messages` (lines 391-399): look up the `sessionId` query
parameter; unknown ids get `404 Session not found`, known ids are routed
to the session's transport. -/
def postMessages (m : SessionRegistry) (sessionId : String) : MessagesResponse :=
  match m.find? (fun e => e.1 == sessionId) with
  | none => .notFound
  | some e => .routed e.2

/-! ## Sanity checks of the executable embedding -/

example :
    String.mk (keyObjectChars "a b" (some 2) none ["x"]) =
      "\x7b\"query\":\"a b\",\"depth\":2,\"existingLearnings\":[\"x\"]\x7d" := by
  decide

example :
    String.mk (keyObjectChars "q\"\\" none (some 3) []) =
      "\x7b\"query\":\"q\\\"\\\\\",\"breadth\":3,\"existingLearnings\":[]\x7d" := by
  decide

example : utf8Len "abc" = 3 := by decide
example : utf8Len "é€" = 5 := by decide

example : sha256Hex "" = "e3b0c44298fc1c149afbf4c8996fb92427ae41e4649b934ca495991b7852b855" := by
  decide

example : sha256Hex "abc" = "ba7816bf8f01cfea414140de5dae2223b00361a396177a9cb410ff61f20015ad" := by
  decide

/-! ## Cache lemmas -/

/-- Looking up a key immediately after `set`: hit while the age is within
the TTL, miss afterwards. -/
theorem cacheGet_cacheSet_self (st : CacheState) (k : String) (t t' ttl : Nat)
    (v : MCPResearchResult) :
    cacheGet (cacheSet st k t v) k t' ttl = if t' - t > ttl then none else some v := by
  unfold cacheGet cacheSet
  rw [show (50 : Nat) = 49 + 1 from rfl, List.take_succ_cons,
    List.find?_cons_of_pos _ (by simp)]

/-- A cache miss persists as time moves forward (staleness is monotone
for a fixed entry). -/
theorem cacheGet_mono_none (st : CacheState) (k : String) (t0 t1 ttl : Nat)
    (h : cacheGet st k t0 ttl = none) (hle : t0 ≤ t1) :
    cacheGet st k t1 ttl = none := by
  unfold cacheGet at h ⊢
  cases hf : st.find? (fun e => e.1 == k) with
  | none => rfl
  | some e =>
    rw [hf] at h
    dsimp only at h ⊢
    by_cases hgt : t0 - e.2.1 > ttl
    · rw [if_pos (by omega)]
    · rw [if_neg hgt] at h
      exact absurd h (by simp)

/-- On a cache miss with a successful pipeline outcome, the handler
returns the freshly built success result, stores it, and invokes the
pipeline with the defaulted arguments. -/
theorem handleRun_miss_ok (ttl : Nat) (http : Bool) (st : CacheState) (now : Nat)
    (inp : ToolInput) (res : ResearchOutput) (fr up : Except Unit String)
    (hmiss : cacheGet st (hashKey inp) now ttl = none) :
    handleRun ttl http st now inp (.ok res) fr up =
      ⟨successResult http inp.query res fr up,
       cacheSet st (hashKey inp) now (successResult http inp.query res fr up),
       some (researchArgsOf inp)⟩ := by
  simp [handleRun, hmiss]

/-- On a cache miss with a failing pipeline, the handler returns the
error result and leaves the cache untouched. -/
theorem handleRun_miss_error (ttl : Nat) (http : Bool) (st : CacheState) (now : Nat)
    (inp : ToolInput) (e : String) (fr up : Except Unit String)
    (hmiss : cacheGet st (hashKey inp) now ttl = none) :
    handleRun ttl http st now inp (.error e) fr up =
      ⟨errorResult e, st, some (researchArgsOf inp)⟩ := by
  simp [handleRun, hmiss]

/-- On a cache miss the handler always invokes the pipeline, whatever
its outcome. -/
theorem handleRun_miss_invoked (ttl : Nat) (http : Bool) (st : CacheState) (now : Nat)
    (inp : ToolInput) (pl : Except String ResearchOutput) (fr up : Except Unit String)
    (hmiss : cacheGet st (hashKey inp) now ttl = none) :
    (handleRun ttl http st now inp pl fr up).invoked = some (researchArgsOf inp) := by
  cases pl <;> simp [handleRun, hmiss]

/-! ## Claim theorems -/

/-- C1: a second tool call with the same inputs, made while the cached
entry's age is within the TTL, returns the first call's stored result
verbatim without invoking the pipeline; once the age exceeds the TTL the
lookup misses and the pipeline is invoked again. -/
theorem cache_hit_within_ttl_and_miss_after_expiry
    (ttl : Nat) (http : Bool) (st : CacheState) (t0 t1 : Nat) (inp : ToolInput)
    (res : ResearchOutput) (fr up fr2 up2 : Except Unit String)
    (pl2 : Except String ResearchOutput)
    (hmiss : cacheGet st (hashKey inp) t0 ttl = none) :
    (t1 - t0 ≤ ttl →
      handleRun ttl http (handleRun ttl http st t0 inp (.ok res) fr up).state t1 inp pl2 fr2 up2
        = ⟨(handleRun ttl http st t0 inp (.ok res) fr up).result,
           (handleRun ttl http st t0 inp (.ok res) fr up).state, none⟩)
    ∧ (ttl < t1 - t0 →
      (handleRun ttl http (handleRun ttl http st t0 inp (.ok res) fr up).state
          t1 inp pl2 fr2 up2).invoked = some (researchArgsOf inp)) := by
  rw [handleRun_miss_ok ttl http st t0 inp res fr up hmiss]
  constructor
  · intro hfresh
    have h2 : cacheGet (cacheSet st (hashKey inp) t0 (successResult http inp.query res fr up))
        (hashKey inp) t1 ttl = some (successResult http inp.query res fr up) := by
      rw [cacheGet_cacheSet_self, if_neg (by omega)]
    simp [handleRun, h2]
  · intro hstale
    have h2 : cacheGet (cacheSet st (hashKey inp) t0 (successResult http inp.query res fr up))
        (hashKey inp) t1 ttl = none := by
      rw [cacheGet_cacheSet_self, if_pos (by omega)]
    exact handleRun_miss_invoked ttl http _ t1 inp pl2 fr2 up2 h2

theorem cache_hit_within_ttl_and_miss_after_expiry_witness :
    (handleRun 1000 false
        (handleRun 1000 false [] 0 ⟨"q", none, none, [], none, none⟩
          (.ok ⟨["L1"], ["U1"], none, some "body"⟩) (.ok "") (.ok "u")).state
        900 ⟨"q", none, none, [], none, none⟩ (.error "boom") (.ok "") (.ok "u")
      = ⟨(handleRun 1000 false [] 0 ⟨"q", none, none, [], none, none⟩
            (.ok ⟨["L1"], ["U1"], none, some "body"⟩) (.ok "") (.ok "u")).result,
         (handleRun 1000 false [] 0 ⟨"q", none, none, [], none, none⟩
            (.ok ⟨["L1"], ["U1"], none, some "body"⟩) (.ok "") (.ok "u")).state, none⟩)
    ∧ ((handleRun 1000 false
        (handleRun 1000 false [] 0 ⟨"q", none, none, [], none, none⟩
          (.ok ⟨["L1"], ["U1"], none, some "body"⟩) (.ok "") (.ok "u")).state
        5000 ⟨"q", none, none, [], none, none⟩ (.error "boom") (.ok "") (.ok "u")).invoked
      = some ⟨"q", 2, 2, []⟩) :=
  ⟨(cache_hit_within_ttl_and_miss_after_expiry 1000 false [] 0 900
      ⟨"q", none, none, [], none, none⟩ ⟨["L1"], ["U1"], none, some "body"⟩
      (.ok "") (.ok "u") (.ok "") (.ok "u") (.error "boom") (by decide)).1 (by decide),
   (cache_hit_within_ttl_and_miss_after_expiry 1000 false [] 0 5000
      ⟨"q", none, none, [], none, none⟩ ⟨["L1"], ["U1"], none, some "body"⟩
      (.ok "") (.ok "u") (.ok "") (.ok "u") (.error "boom") (by decide)).2 (by decide)⟩

/-- C2: the delivery mode is offloaded (a report URL is present in the
metadata) exactly when the HTTP-mode flag is set or the computed report
size in KB exceeds the 50 KB threshold; in particular a computed size of
49 KB in stdio mode stays inline, 51 KB in stdio mode is offloaded, and
HTTP mode always offloads; the computed size of a 49-KB (resp. 51-KB)
byte payload is 49 (resp. 51). -/
theorem delivery_mode_threshold_policy :
    (∀ http q res fr up,
      ((successResult http q res fr up).metadata.reportUrl).isSome
        = useUrlMode http (reportSizeKBOf (utf8Len (reportContentOf res fr))))
    ∧ useUrlMode false 49 = false
    ∧ useUrlMode false 51 = true
    ∧ (∀ kb, useUrlMode true kb = true)
    ∧ reportSizeKBOf (49 * 1024) = 49
    ∧ reportSizeKBOf (51 * 1024) = 51 := by
  refine ⟨?_, by decide, by decide, fun kb => rfl, by decide, by decide⟩
  intro http q res fr up
  cases h : useUrlMode http (reportSizeKBOf (utf8Len (reportContentOf res fr))) <;>
    simp [successResult, h]

/-- C4 counterexample: a tool call whose report retrieval throws
(`content` absent, `reportPath` present, file read fails) returns a
result whose metadata is NOT empty — the pipeline's learnings are kept —
contradicting the claim that retrieval failures yield an
error-result with empty metadata. -/
theorem retrieval_failure_full_metadata_cex :
    (handleRun 600000 false [] 0 ⟨"q", none, none, [], none, none⟩
      (.ok ⟨["L1"], ["U1"], some "/tmp/report.md", none⟩) (.error ())
      (.ok "u")).result.metadata.learnings = ["L1"] := by
  decide

/-- C4 (amended): a pipeline failure yields the error result (an
error-describing text block with empty metadata); a report-retrieval
failure instead substitutes the placeholder body
`"Error reading report file."` and returns a normal success result whose
metadata still carries the pipeline's learnings and sources; in both
cases the handler returns a well-formed result rather than propagating
an exception. -/
theorem pipeline_error_vs_retrieval_failure
    (ttl : Nat) (http : Bool) (st : CacheState) (now : Nat) (inp : ToolInput)
    (e : String) (fr up : Except Unit String)
    (hmiss : cacheGet st (hashKey inp) now ttl = none) :
    ((handleRun ttl http st now inp (.error e) fr up).result = errorResult e
      ∧ errorResult e = ⟨[⟨"text", "Error during deep research: " ++ e⟩],
          ⟨[], [], ⟨0, 0⟩, none, none⟩⟩)
    ∧ (∀ ls us p c, truthyOpt c = false →
        reportContentOf ⟨ls, us, some p, c⟩ (.error ()) = "Error reading report file.")
    ∧ (∀ res : ResearchOutput,
        (handleRun ttl http st now inp (.ok res) fr up).result.metadata.learnings = res.learnings
        ∧ (handleRun ttl http st now inp (.ok res) fr up).result.metadata.visitedUrls
            = res.visitedUrls) := by
  refine ⟨⟨by rw [handleRun_miss_error ttl http st now inp e fr up hmiss], rfl⟩, ?_, ?_⟩
  · intro ls us p c hc
    cases c with
    | none => rfl
    | some s =>
      have hs : s = "" := by simpa [truthyOpt] using hc
      subst hs
      rfl
  · intro res
    rw [handleRun_miss_ok ttl http st now inp res fr up hmiss]
    cases h : useUrlMode http (reportSizeKBOf (utf8Len (reportContentOf res fr))) <;>
      simp [successResult, h]

theorem pipeline_error_vs_retrieval_failure_witness :
    ((handleRun 600000 false [] 0 ⟨"q", none, none, [], none, none⟩
        (.error "boom") (.ok "") (.ok "u")).result
      = errorResult "boom")
    ∧ reportContentOf ⟨["L1"], ["U1"], some "/tmp/r.md", none⟩ (.error ())
        = "Error reading report file." :=
  ⟨((pipeline_error_vs_retrieval_failure 600000 false [] 0 ⟨"q", none, none, [], none, none⟩
      "boom" (.ok "") (.ok "u") (by decide)).1).1,
   (pipeline_error_vs_retrieval_failure 600000 false [] 0 ⟨"q", none, none, [], none, none⟩
      "boom" (.ok "") (.ok "u") (by decide)).2.1 ["L1"] ["U1"] "/tmp/r.md" none (by decide)⟩

/-- C5: when the delivery is offloaded and the storage upload throws,
the result still has the normal success shape — the pipeline's metadata
is intact — but its `reportUrl` field is the explicit error marker
string instead of a URL. -/
theorem upload_failure_error_marker (http : Bool) (q : String) (res : ResearchOutput)
    (fr : Except Unit String)
    (hurl : useUrlMode http (reportSizeKBOf (utf8Len (reportContentOf res fr))) = true) :
    (successResult http q res fr (.error ())).metadata.reportUrl = some uploadErrorMarker
    ∧ (successResult http q res fr (.error ())).metadata.learnings = res.learnings
    ∧ (successResult http q res fr (.error ())).metadata.stats.totalLearnings
        = res.learnings.length
    ∧ (successResult http q res fr (.error ())).content
        = [⟨"text", urlModeText (reportSizeKBOf (utf8Len (reportContentOf res fr)))
            uploadErrorMarker
            (sizeNoteOf http (reportSizeKBOf (utf8Len (reportContentOf res fr))))
            (suggestedFilenameOf q)⟩] := by
  simp [successResult, hurl]

theorem upload_failure_error_marker_witness :
    (successResult true "q" ⟨["L1"], ["U1"], none, some "body"⟩ (.ok "")
      (.error ())).metadata.reportUrl = some uploadErrorMarker :=
  (upload_failure_error_marker true "q" ⟨["L1"], ["U1"], none, some "body"⟩
    (.ok "") (by decide)).1

/-- C6: the TTL computation does NOT stay within [1000, 86400000] for
every environment value — a non-numeric string makes `parseInt` return
`NaN` (modelled as `none`), which `Math.min`/`Math.max` propagate
unchanged, so no clamping happens; absent, small and huge numeric values
are clamped as intended. -/
theorem ttl_clamp_nan_failing_input :
    mcpCacheTtlMs (some "abc") = none
    ∧ mcpCacheTtlMs none = some 600000
    ∧ mcpCacheTtlMs (some "") = some 600000
    ∧ mcpCacheTtlMs (some "500") = some 1000
    ∧ mcpCacheTtlMs (some "-5") = some 1000
    ∧ mcpCacheTtlMs (some "99999999999") = some 86400000 := by
  decide

/-- C7: with no API key configured every request passes the auth gate
and reaches the dispatcher; with a key configured, a request whose
provided key (x-api-key header, or Bearer authorization) is absent or
different is answered 401 without reaching the dispatcher, while the
matching key passes; `GET /health` is served without any authentication
check in both cases. -/
theorem api_key_auth_gating :
    (∀ xk az d, postMcp none xk az d = (d, true))
    ∧ (∀ key xk az d, key ≠ "" → providedKeyOf xk az ≠ some key →
        postMcp (some key) xk az d = (.json 401 "\x7b\"error\":\"Unauthorized\"\x7d", false))
    ∧ (∀ key xk az d, key ≠ "" → providedKeyOf xk az = some key →
        postMcp (some key) xk az d = (d, true))
    ∧ (∀ cfg xk az, getHealth cfg xk az
        = .json 200 "\x7b\"status\":\"ok\",\"mode\":\"http\",\"version\":\"1.0.0\"\x7d") := by
  refine ⟨fun xk az d => rfl, ?_, ?_, fun cfg xk az => rfl⟩
  · intro key xk az d hkey hne
    unfold postMcp apiKeyAuth
    rw [show truthyOpt (some key) = true by simpa [truthyOpt] using hkey]
    cases hp : providedKeyOf xk az with
    | none => rfl
    | some p =>
      have : p ≠ key := fun h => hne (by rw [hp, h])
      simp [this]
  · intro key xk az d hkey hp
    unfold postMcp apiKeyAuth
    rw [show truthyOpt (some key) = true by simpa [truthyOpt] using hkey, hp]
    simp

theorem api_key_auth_gating_witness :
    postMcp none none none (.json 200 "ok") = (.json 200 "ok", true)
    ∧ postMcp (some "secret") none (some "Bearer wrong") (.json 200 "ok")
        = (.json 401 "\x7b\"error\":\"Unauthorized\"\x7d", false)
    ∧ postMcp (some "secret") none (some "Bearer secret") (.json 200 "ok")
        = (.json 200 "ok", true) :=
  ⟨api_key_auth_gating.1 none none (.json 200 "ok"),
   api_key_auth_gating.2.1 "secret" none (some "Bearer wrong") (.json 200 "ok")
     (by decide) (by decide),
   api_key_auth_gating.2.2.1 "secret" none (some "Bearer secret") (.json 200 "ok")
     (by decide) (by decide)⟩

/-- C8: opening an SSE connection with a fresh identifier registers
exactly one session record; closing it removes exactly that record;
posting to the messages endpoint with an unregistered identifier yields
not-found, while a registered identifier routes to that session's
transport. -/
theorem sse_session_lifecycle (m : SessionRegistry) (id : String) (t : Nat)
    (hfresh : ∀ e ∈ m, e.1 ≠ id) :
    sseOpen m id t = (id, t) :: m
    ∧ sseClose (sseOpen m id t) id = m
    ∧ postMessages (sseOpen m id t) id = .routed t
    ∧ (∀ sid, (∀ e ∈ m, e.1 ≠ sid) → postMessages m sid = .notFound) := by
  have hfilter : m.filter (fun e => e.1 != id) = m :=
    List.filter_eq_self.mpr (fun e he => by simpa using hfresh e he)
  refine ⟨by simp [sseOpen, hfilter], ?_, ?_, ?_⟩
  · simp [sseClose, sseOpen, hfilter, List.filter_cons]
  · simp [postMessages, sseOpen, hfilter, List.find?_cons]
  · intro sid hsid
    unfold postMessages
    rw [List.find?_eq_none.mpr (fun e he => by simpa using hsid e he)]

theorem sse_session_lifecycle_witness :
    sseOpen [("a", 1)] "b" 2 = [("b", 2), ("a", 1)]
    ∧ sseClose (sseOpen [("a", 1)] "b" 2) "b" = [("a", 1)]
    ∧ postMessages (sseOpen [("a", 1)] "b" 2) "b" = .routed 2
    ∧ postMessages [("a", 1)] "x" = .notFound :=
  ⟨(sse_session_lifecycle [("a", 1)] "b" 2 (by decide)).1,
   (sse_session_lifecycle [("a", 1)] "b" 2 (by decide)).2.1,
   (sse_session_lifecycle [("a", 1)] "b" 2 (by decide)).2.2.1,
   (sse_session_lifecycle [("a", 1)] "b" 2 (by decide)).2.2.2 "x" (by decide)⟩

/-- C9: a tool call whose pipeline invocation fails leaves the cache
state exactly as it was — the error result is never stored — so any
later identical call misses the cache and invokes the pipeline again. -/
theorem pipeline_error_not_cached (ttl : Nat) (http : Bool) (st : CacheState)
    (now t1 : Nat) (inp : ToolInput) (e : String) (fr up fr2 up2 : Except Unit String)
    (pl2 : Except String ResearchOutput)
    (hmiss : cacheGet st (hashKey inp) now ttl = none) (hle : now ≤ t1) :
    (handleRun ttl http st now inp (.error e) fr up).state = st
    ∧ (handleRun ttl http (handleRun ttl http st now inp (.error e) fr up).state
        t1 inp pl2 fr2 up2).invoked = some (researchArgsOf inp) := by
  rw [handleRun_miss_error ttl http st now inp e fr up hmiss]
  exact ⟨rfl,
    handleRun_miss_invoked ttl http st t1 inp pl2 fr2 up2
      (cacheGet_mono_none st (hashKey inp) now t1 ttl hmiss hle)⟩

theorem pipeline_error_not_cached_witness :
    (handleRun 1000 false [] 0 ⟨"q", none, none, [], none, none⟩
        (.error "boom") (.ok "") (.ok "u")).state = []
    ∧ (handleRun 1000 false
        (handleRun 1000 false [] 0 ⟨"q", none, none, [], none, none⟩
          (.error "boom") (.ok "") (.ok "u")).state
        7 ⟨"q", none, none, [], none, none⟩ (.error "boom2") (.ok "") (.ok "u")).invoked
      = some ⟨"q", 2, 2, []⟩ :=
  pipeline_error_not_cached 1000 false [] 0 7 ⟨"q", none, none, [], none, none⟩
    "boom" (.ok "") (.ok "u") (.ok "") (.ok "u") (.error "boom2") (by decide) (by decide)

/-- C10: every result built on the success path — whichever delivery
mode — carries the pipeline's learnings and visitedUrls verbatim, with
`stats.totalLearnings` and `stats.totalSources` equal to their lengths;
and on a cache miss with a successful pipeline the handler returns
exactly that result. -/
theorem success_metadata_stats_consistent :
    (∀ ttl http st now inp res fr up, cacheGet st (hashKey inp) now ttl = none →
      (handleRun ttl http st now inp (.ok res) fr up).result
        = successResult http inp.query res fr up)
    ∧ (∀ http q res fr up,
        (successResult http q res fr up).metadata.learnings = res.learnings
        ∧ (successResult http q res fr up).metadata.visitedUrls = res.visitedUrls
        ∧ (successResult http q res fr up).metadata.stats.totalLearnings
            = res.learnings.length
        ∧ (successResult http q res fr up).metadata.stats.totalSources
            = res.visitedUrls.length) := by
  constructor
  · intro ttl http st now inp res fr up hmiss
    rw [handleRun_miss_ok ttl http st now inp res fr up hmiss]
  · intro http q res fr up
    cases h : useUrlMode http (reportSizeKBOf (utf8Len (reportContentOf res fr))) <;>
      simp [successResult, h]

/-! ## Injectivity of the canonical cache-key serialization (towards C3)

`hashKey` applies SHA-256 to `stringifyKeyObject`; fingerprints of
semantically equal inputs coincide because the serialization is a
function of the four semantic fields only, and fingerprints of differing
inputs coincide only on a SHA-256 collision because the serialization is
injective.  The lemmas below establish that injectivity. -/

theorem char_toNat_inj (c1 c2 : Char) (h : c1.toNat = c2.toNat) : c1 = c2 := by
  have h1 := Char.ofNat_toNat c1
  rw [h, Char.ofNat_toNat c2] at h1
  exact h1.symm

theorem hexDigitChar_inj (d1 d2 : Nat) (h1 : d1 < 16) (h2 : d2 < 16)
    (h : hexDigitChar d1 = hexDigitChar d2) : d1 = d2 := by
  have key : ∀ a b : Fin 16, hexDigitChar a.val = hexDigitChar b.val → a = b := by decide
  have := key ⟨d1, h1⟩ ⟨d2, h2⟩ h
  simpa using congrArg Fin.val this

theorem toNat_ofNat_digit (d : Nat) (hd : d < 10) : (Char.ofNat (48 + d)).toNat = 48 + d := by
  interval_cases d <;> decide

theorem hex_esc_inj (c1 c2 : Char) (ha : c1.toNat < 32) (hb : c2.toNat < 32)
    (h1 : hexDigitChar (c1.toNat / 16) = hexDigitChar (c2.toNat / 16))
    (h2 : hexDigitChar (c1.toNat % 16) = hexDigitChar (c2.toNat % 16)) : c1 = c2 := by
  have d1 := hexDigitChar_inj _ _ (by omega) (by omega) h1
  have d2 := hexDigitChar_inj _ _ (by omega) (by omega) h2
  exact char_toNat_inj _ _ (by omega)

theorem escChar_ne_nil (c : Char) : escChar c ≠ [] := by
  unfold escChar
  split_ifs <;> simp

theorem escChar_head_ne_quote (c e : Char) (es : List Char)
    (h : escChar c = e :: es) : e ≠ '"' := by
  unfold escChar at h
  split_ifs at h <;>
    (simp only [List.cons.injEq] at h
     obtain ⟨he, -⟩ := h
     subst he) <;>
    first
      | decide
      | assumption

theorem escChar_two_shape (c x : Char) (h : escChar c = ['\\', x]) :
    (x = '"' ∧ c = '"') ∨ (x = '\\' ∧ c = '\\') ∨ (x = 'b' ∧ c = '\x08')
    ∨ (x = 't' ∧ c = '\x09') ∨ (x = 'n' ∧ c = '\x0a') ∨ (x = 'f' ∧ c = '\x0c')
    ∨ (x = 'r' ∧ c = '\x0d') := by
  unfold escChar at h
  split_ifs at h <;> simp only [List.cons.injEq, and_true] at h <;> simp_all <;>
    (try exact h.symm)

theorem escChar_two_inj (c1 c2 x : Char) (h1 : escChar c1 = ['\\', x])
    (h2 : escChar c2 = ['\\', x]) : c1 = c2 := by
  rcases escChar_two_shape c1 x h1 with
      ⟨hx, hc⟩ | ⟨hx, hc⟩ | ⟨hx, hc⟩ | ⟨hx, hc⟩ | ⟨hx, hc⟩ | ⟨hx, hc⟩ | ⟨hx, hc⟩ <;>
    rcases escChar_two_shape c2 x h2 with
      ⟨hx2, hc2⟩ | ⟨hx2, hc2⟩ | ⟨hx2, hc2⟩ | ⟨hx2, hc2⟩ | ⟨hx2, hc2⟩ | ⟨hx2, hc2⟩ | ⟨hx2, hc2⟩ <;>
    first
      | (exact hc.trans hc2.symm)
      | (exact absurd (hx.symm.trans hx2) (by decide))

theorem escChar_classify (c : Char) :
    (escChar c = [c] ∧ c ≠ '"' ∧ c ≠ '\\' ∧ ¬c.toNat < 32)
    ∨ (∃ x, escChar c = ['\\', x] ∧ x ≠ 'u')
    ∨ (escChar c = ['\\', 'u', '0', '0', hexDigitChar (c.toNat / 16),
        hexDigitChar (c.toNat % 16)] ∧ c.toNat < 32) := by
  unfold escChar
  split_ifs <;>
    first
      | exact Or.inl ⟨rfl, by assumption, by assumption, by assumption⟩
      | exact Or.inr (Or.inr ⟨rfl, by assumption⟩)
      | exact Or.inr (Or.inl ⟨_, rfl, by decide⟩)

theorem escChar_append_inj (c1 c2 : Char) (a b : List Char)
    (h : escChar c1 ++ a = escChar c2 ++ b) : c1 = c2 ∧ a = b := by
  rcases escChar_classify c1 with ⟨e1, hq1, hs1, hh1⟩ | ⟨x1, e1, hx1⟩ | ⟨e1, hlt1⟩ <;>
    rcases escChar_classify c2 with ⟨e2, hq2, hs2, hh2⟩ | ⟨x2, e2, hx2⟩ | ⟨e2, hlt2⟩ <;>
    rw [e1, e2] at h <;>
    simp only [List.cons_append, List.nil_append, List.cons.injEq,
      eq_self_iff_true, true_and] at h
  · exact h
  · exact absurd h.1 hs1
  · exact absurd h.1 hs1
  · exact absurd h.1.symm hs2
  · obtain ⟨hx, hab⟩ := h
    subst hx
    exact ⟨escChar_two_inj c1 c2 x1 e1 e2, hab⟩
  · exact absurd h.1 hx1
  · exact absurd h.1.symm hs2
  · exact absurd h.1.symm hx2
  · obtain ⟨hd1, hd2, hab⟩ := h
    exact ⟨hex_esc_inj c1 c2 hlt1 hlt2 hd1 hd2, hab⟩

/-- The escaped body of a JSON string literal, followed by the closing
quote, determines the original character list and the remainder. -/
theorem escList_quote_inj : ∀ (s1 s2 r1 r2 : List Char),
    escList s1 ++ '"' :: r1 = escList s2 ++ '"' :: r2 → s1 = s2 ∧ r1 = r2 := by
  intro s1
  induction s1 with
  | nil =>
    intro s2 r1 r2 h
    cases s2 with
    | nil =>
      refine ⟨rfl, ?_⟩
      simpa [escList] using h
    | cons c t =>
      exfalso
      simp only [escList, List.flatMap_cons, List.flatMap_nil, List.nil_append,
        List.append_assoc] at h
      cases he : escChar c with
      | nil => exact escChar_ne_nil c he
      | cons e es =>
        rw [he] at h
        simp only [List.cons_append, List.cons.injEq] at h
        exact escChar_head_ne_quote c e es he h.1.symm
  | cons c1 t1 ih =>
    intro s2 r1 r2 h
    cases s2 with
    | nil =>
      exfalso
      simp only [escList, List.flatMap_cons, List.flatMap_nil, List.nil_append,
        List.append_assoc] at h
      cases he : escChar c1 with
      | nil => exact escChar_ne_nil c1 he
      | cons e es =>
        rw [he] at h
        simp only [List.cons_append, List.cons.injEq] at h
        exact escChar_head_ne_quote c1 e es he h.1
    | cons c2 t2 =>
      simp only [escList, List.flatMap_cons, List.append_assoc] at h
      obtain ⟨hc, hrest⟩ := escChar_append_inj c1 c2 _ _ h
      obtain ⟨ht, hr⟩ := ih t2 r1 r2 (by simpa [escList] using hrest)
      exact ⟨by rw [hc, ht], hr⟩

/-- A quoted JSON string literal is a prefix code: it determines the
string and the remainder. -/
theorem jsonQuote_append_inj (s1 s2 : String) (r1 r2 : List Char)
    (h : jsonQuote s1 ++ r1 = jsonQuote s2 ++ r2) : s1 = s2 ∧ r1 = r2 := by
  simp only [jsonQuote, List.cons_append, List.append_assoc, List.singleton_append,
    List.cons.injEq, true_and] at h
  obtain ⟨hd, hr⟩ := escList_quote_inj s1.data s2.data r1 r2 h
  refine ⟨?_, hr⟩
  cases s1
  cases s2
  exact congrArg String.mk hd

/-- Two runs of characters satisfying `p`, both terminated by a
character violating `p`, coincide — span uniqueness. -/
theorem span_unique (p : Char → Prop) : ∀ (A B : List Char) (c1 c2 : Char) (r1 r2 : List Char),
    (∀ c ∈ A, p c) → (∀ c ∈ B, p c) → ¬p c1 → ¬p c2 →
    A ++ c1 :: r1 = B ++ c2 :: r2 → A = B ∧ c1 = c2 ∧ r1 = r2 := by
  intro A
  induction A with
  | nil =>
    intro B c1 c2 r1 r2 _ hB hc1 _ h
    cases B with
    | nil => simpa using h
    | cons b tb =>
      simp only [List.nil_append, List.cons_append, List.cons.injEq] at h
      exact absurd (by rw [h.1]; exact hB b (List.mem_cons_self b tb)) hc1
  | cons a ta ih =>
    intro B c1 c2 r1 r2 hA hB hc1 hc2 h
    cases B with
    | nil =>
      simp only [List.cons_append, List.nil_append, List.cons.injEq] at h
      exact absurd (by rw [← h.1]; exact hA a (List.mem_cons_self a ta)) hc2
    | cons b tb =>
      simp only [List.cons_append, List.cons.injEq] at h
      obtain ⟨hab, hrest⟩ := h
      obtain ⟨hAB, hcc, hrr⟩ := ih tb c1 c2 r1 r2
        (fun c hc => hA c (List.mem_cons_of_mem a hc))
        (fun c hc => hB c (List.mem_cons_of_mem b hc)) hc1 hc2 hrest
      exact ⟨by rw [hab, hAB], hcc, hrr⟩

theorem natCharsAux_eq_digits : ∀ (fuel n : Nat), n ≤ fuel →
    natCharsAux fuel n = (Nat.digits 10 n).map (fun d => Char.ofNat (48 + d)) := by
  intro fuel
  induction fuel with
  | zero =>
    intro n hn
    interval_cases n
    simp [natCharsAux]
  | succ f ih =>
    intro n hn
    cases n with
    | zero => simp [natCharsAux]
    | succ m =>
      rw [show natCharsAux (f + 1) (m + 1)
          = Char.ofNat (48 + (m + 1) % 10) :: natCharsAux f ((m + 1) / 10) from rfl]
      rw [Nat.digits_def' (by norm_num : (1 : Nat) < 10) (Nat.succ_pos m)]
      rw [List.map_cons, ih ((m + 1) / 10) (by omega)]

theorem natChars_eq_digits (n : Nat) (hn : n ≠ 0) :
    natChars n = ((Nat.digits 10 n).map (fun d => Char.ofNat (48 + d))).reverse := by
  unfold natChars
  rw [if_neg hn, natCharsAux_eq_digits n n le_rfl]

theorem natChars_all_digits (n : Nat) :
    ∀ c ∈ natChars n, 48 ≤ c.toNat ∧ c.toNat ≤ 57 := by
  intro c hc
  by_cases hn : n = 0
  · subst hn
    have hc' : c = '0' := by simpa [natChars] using hc
    subst hc'
    decide
  · rw [natChars_eq_digits n hn, List.mem_reverse, List.mem_map] at hc
    obtain ⟨d, hd, rfl⟩ := hc
    have hlt : d < 10 := Nat.digits_lt_base (by norm_num) hd
    rw [toNat_ofNat_digit d hlt]
    omega

theorem map_digitChar_inj : ∀ (l1 l2 : List Nat), (∀ d ∈ l1, d < 10) → (∀ d ∈ l2, d < 10) →
    l1.map (fun d => Char.ofNat (48 + d)) = l2.map (fun d => Char.ofNat (48 + d)) →
    l1 = l2 := by
  intro l1
  induction l1 with
  | nil =>
    intro l2 _ _ h
    cases l2 with
    | nil => rfl
    | cons d t => simp at h
  | cons d1 t1 ih =>
    intro l2 h1 h2 h
    cases l2 with
    | nil => simp at h
    | cons d2 t2 =>
      simp only [List.map_cons, List.cons.injEq] at h
      have hd : d1 = d2 := by
        have e1 := toNat_ofNat_digit d1 (h1 d1 (List.mem_cons_self d1 t1))
        have e2 := toNat_ofNat_digit d2 (h2 d2 (List.mem_cons_self d2 t2))
        have e3 := congrArg Char.toNat h.1
        omega
      rw [hd, ih t2 (fun d hd' => h1 d (List.mem_cons_of_mem d1 hd'))
        (fun d hd' => h2 d (List.mem_cons_of_mem d2 hd')) h.2]

theorem natChars_eq_singleton_zero (n : Nat) (h : natChars n = ['0']) : n = 0 := by
  by_contra hn
  rw [natChars_eq_digits n hn] at h
  have h' : (Nat.digits 10 n).map (fun d => Char.ofNat (48 + d)) = ['0'] := by
    have := congrArg List.reverse h
    simpa using this
  cases hd : Nat.digits 10 n with
  | nil => exact hn (Nat.digits_eq_nil_iff_eq_zero.mp hd)
  | cons d ds =>
    rw [hd] at h'
    simp only [List.map_cons, List.cons.injEq, List.map_eq_nil_iff] at h'
    obtain ⟨hchar, hds⟩ := h'
    have hd10 : d < 10 := Nat.digits_lt_base (by norm_num)
      (by rw [hd]; exact List.mem_cons_self d ds)
    have hdz : d = 0 := by
      have hval := congrArg Char.toNat hchar
      rw [toNat_ofNat_digit d hd10, show ('0' : Char).toNat = 48 from rfl] at hval
      omega
    have ho := Nat.ofDigits_digits 10 n
    rw [hd, hds, hdz] at ho
    simp [Nat.ofDigits] at ho
    exact hn ho.symm

theorem natChars_inj (n1 n2 : Nat) (h : natChars n1 = natChars n2) : n1 = n2 := by
  by_cases h1 : n1 = 0
  · subst h1
    have h0 : natChars n2 = ['0'] := by simpa [natChars] using h.symm
    exact (natChars_eq_singleton_zero n2 h0).symm
  · by_cases h2 : n2 = 0
    · subst h2
      have h0 : natChars n1 = ['0'] := by simpa [natChars] using h
      exact natChars_eq_singleton_zero n1 h0
    · rw [natChars_eq_digits n1 h1, natChars_eq_digits n2 h2] at h
      have h' := List.reverse_injective h
      have hd := map_digitChar_inj _ _
        (fun d hd => Nat.digits_lt_base (by norm_num) hd)
        (fun d hd => Nat.digits_lt_base (by norm_num) hd) h'
      have hco := congrArg (Nat.ofDigits 10) hd
      rwa [Nat.ofDigits_digits, Nat.ofDigits_digits] at hco

/-- A decimal digit run terminated by a comma determines the number and
the remainder. -/
theorem natChars_comma_inj (n1 n2 : Nat) (r1 r2 : List Char)
    (h : natChars n1 ++ ',' :: r1 = natChars n2 ++ ',' :: r2) : n1 = n2 ∧ r1 = r2 := by
  obtain ⟨hA, -, hr⟩ := span_unique (fun c => 48 ≤ c.toNat ∧ c.toNat ≤ 57)
    (natChars n1) (natChars n2) ',' ',' r1 r2
    (natChars_all_digits n1) (natChars_all_digits n2) (by decide) (by decide) h
  exact ⟨natChars_inj n1 n2 hA, hr⟩

theorem joinElems_cons_head (s : String) (rest : List String) :
    ∃ t, joinElems (s :: rest) = '"' :: t := by
  cases rest with
  | nil => exact ⟨_, rfl⟩
  | cons v tv => exact ⟨_, rfl⟩

/-- The joined elements of a JSON array, terminated by the closing
bracket, determine the element list and the remainder. -/
theorem joinElems_append_inj : ∀ (l1 l2 : List String) (r1 r2 : List Char),
    joinElems l1 ++ ']' :: r1 = joinElems l2 ++ ']' :: r2 → l1 = l2 ∧ r1 = r2 := by
  intro l1
  induction l1 with
  | nil =>
    intro l2 r1 r2 h
    cases l2 with
    | nil =>
      refine ⟨rfl, ?_⟩
      simpa [joinElems] using h
    | cons s2 t2 =>
      exfalso
      obtain ⟨t, ht⟩ := joinElems_cons_head s2 t2
      rw [ht] at h
      simp only [joinElems, List.nil_append, List.cons_append, List.cons.injEq] at h
      exact absurd h.1 (by decide)
  | cons s1 t1 ih =>
    intro l2 r1 r2 h
    cases l2 with
    | nil =>
      exfalso
      obtain ⟨t, ht⟩ := joinElems_cons_head s1 t1
      rw [ht] at h
      simp only [joinElems, List.nil_append, List.cons_append, List.cons.injEq] at h
      exact absurd h.1 (by decide)
    | cons s2 t2 =>
      cases t1 with
      | nil =>
        cases t2 with
        | nil =>
          simp only [joinElems] at h
          obtain ⟨hs, hr⟩ := jsonQuote_append_inj s1 s2 _ _ h
          simp only [List.cons.injEq, true_and] at hr
          exact ⟨by rw [hs], hr⟩
        | cons u tu =>
          exfalso
          simp only [joinElems, List.append_assoc, List.cons_append] at h
          obtain ⟨-, hr⟩ := jsonQuote_append_inj s1 s2 _ _ h
          simp only [List.cons.injEq] at hr
          exact absurd hr.1 (by decide)
      | cons v tv =>
        cases t2 with
        | nil =>
          exfalso
          simp only [joinElems, List.append_assoc, List.cons_append] at h
          obtain ⟨-, hr⟩ := jsonQuote_append_inj s1 s2 _ _ h
          simp only [List.cons.injEq] at hr
          exact absurd hr.1 (by decide)
        | cons u tu =>
          simp only [joinElems, List.append_assoc, List.cons_append] at h
          obtain ⟨hs, hr⟩ := jsonQuote_append_inj s1 s2 _ _ h
          simp only [List.cons.injEq, true_and] at hr
          obtain ⟨hl, hz⟩ := ih (u :: tu) r1 r2 hr
          exact ⟨by rw [hs, hl], hz⟩

/-- A JSON array of strings is a prefix code. -/
theorem jsonArray_append_inj (l1 l2 : List String) (z1 z2 : List Char)
    (h : jsonArray l1 ++ z1 = jsonArray l2 ++ z2) : l1 = l2 ∧ z1 = z2 := by
  simp only [jsonArray, List.cons_append, List.append_assoc, List.singleton_append,
    List.cons.injEq, true_and] at h
  exact joinElems_append_inj l1 l2 z1 z2 h

theorem queryKey_data : "\"query\":".data = ['"', 'q', 'u', 'e', 'r', 'y', '"', ':'] := rfl

theorem depthKey_data : ",\"depth\":".data
    = [',', '"', 'd', 'e', 'p', 't', 'h', '"', ':'] := rfl

theorem breadthKey_data : ",\"breadth\":".data
    = [',', '"', 'b', 'r', 'e', 'a', 'd', 't', 'h', '"', ':'] := rfl

theorem learnKey_data : ",\"existingLearnings\":".data
    = [',', '"', 'e', 'x', 'i', 's', 't', 'i', 'n', 'g', 'L', 'e', 'a', 'r', 'n', 'i',
       'n', 'g', 's', '"', ':'] := rfl

/-- The serialized breadth field (optional) followed by the learnings
field determines breadth, the learnings and the remainder. -/
theorem breadthTail_inj (b1 b2 : Option Nat) (L1 L2 : List String) (z1 z2 : List Char)
    (h : (match b1 with
          | none => ([] : List Char)
          | some n => ",\"breadth\":".data ++ natChars n)
        ++ (",\"existingLearnings\":".data ++ (jsonArray L1 ++ z1))
       = (match b2 with
          | none => ([] : List Char)
          | some n => ",\"breadth\":".data ++ natChars n)
        ++ (",\"existingLearnings\":".data ++ (jsonArray L2 ++ z2))) :
    b1 = b2 ∧ L1 = L2 ∧ z1 = z2 := by
  cases b1 with
  | none =>
    cases b2 with
    | none =>
      simp only [List.nil_append, learnKey_data, List.cons_append, List.cons.injEq,
        true_and] at h
      obtain ⟨hL, hz⟩ := jsonArray_append_inj L1 L2 z1 z2 h
      exact ⟨rfl, hL, hz⟩
    | some n2 =>
      exfalso
      have h2 : (some 'e' : Option Char) = some 'b' := congrArg (fun l => l[2]?) h
      exact absurd h2 (by decide)
  | some n1 =>
    cases b2 with
    | none =>
      exfalso
      have h2 : (some 'b' : Option Char) = some 'e' := congrArg (fun l => l[2]?) h
      exact absurd h2 (by decide)
    | some n2 =>
      simp only [breadthKey_data, learnKey_data, List.cons_append, List.append_assoc,
        List.nil_append, List.cons.injEq, eq_self_iff_true, true_and] at h
      obtain ⟨hn, hrest⟩ := natChars_comma_inj n1 n2 _ _ h
      simp only [List.cons.injEq, eq_self_iff_true, true_and] at hrest
      obtain ⟨hL, hz⟩ := jsonArray_append_inj L1 L2 z1 z2 hrest
      exact ⟨by rw [hn], hL, hz⟩

/-- The serialized depth field (optional) followed by the breadth and
learnings fields determines all remaining components. -/
theorem depthTail_inj (d1 d2 b1 b2 : Option Nat) (L1 L2 : List String) (z1 z2 : List Char)
    (h : (match d1 with
          | none => ([] : List Char)
          | some n => ",\"depth\":".data ++ natChars n)
        ++ ((match b1 with
          | none => ([] : List Char)
          | some n => ",\"breadth\":".data ++ natChars n)
        ++ (",\"existingLearnings\":".data ++ (jsonArray L1 ++ z1)))
       = (match d2 with
          | none => ([] : List Char)
          | some n => ",\"depth\":".data ++ natChars n)
        ++ ((match b2 with
          | none => ([] : List Char)
          | some n => ",\"breadth\":".data ++ natChars n)
        ++ (",\"existingLearnings\":".data ++ (jsonArray L2 ++ z2)))) :
    d1 = d2 ∧ b1 = b2 ∧ L1 = L2 ∧ z1 = z2 := by
  cases d1 with
  | none =>
    cases d2 with
    | none =>
      simp only [List.nil_append] at h
      obtain ⟨hb, hL, hz⟩ := breadthTail_inj b1 b2 L1 L2 z1 z2 h
      exact ⟨rfl, hb, hL, hz⟩
    | some n2 =>
      exfalso
      cases b1 with
      | none =>
        have h2 : (some 'e' : Option Char) = some 'd' := congrArg (fun l => l[2]?) h
        exact absurd h2 (by decide)
      | some m1 =>
        have h2 : (some 'b' : Option Char) = some 'd' := congrArg (fun l => l[2]?) h
        exact absurd h2 (by decide)
  | some n1 =>
    cases d2 with
    | none =>
      exfalso
      cases b2 with
      | none =>
        have h2 : (some 'd' : Option Char) = some 'e' := congrArg (fun l => l[2]?) h
        exact absurd h2 (by decide)
      | some m2 =>
        have h2 : (some 'd' : Option Char) = some 'b' := congrArg (fun l => l[2]?) h
        exact absurd h2 (by decide)
    | some n2 =>
      cases b1 with
      | none =>
        cases b2 with
        | none =>
          simp only [depthKey_data, learnKey_data, List.cons_append, List.append_assoc,
            List.nil_append, List.cons.injEq, eq_self_iff_true, true_and] at h
          obtain ⟨hn, hrest⟩ := natChars_comma_inj n1 n2 _ _ h
          simp only [List.cons.injEq, eq_self_iff_true, true_and] at hrest
          obtain ⟨hL, hz⟩ := jsonArray_append_inj L1 L2 z1 z2 hrest
          exact ⟨by rw [hn], rfl, hL, hz⟩
        | some m2 =>
          exfalso
          simp only [depthKey_data, learnKey_data, breadthKey_data, List.cons_append,
            List.append_assoc, List.nil_append, List.cons.injEq, eq_self_iff_true,
            true_and] at h
          obtain ⟨-, hrest⟩ := natChars_comma_inj n1 n2 _ _ h
          simp only [List.cons.injEq, eq_self_iff_true, true_and] at hrest
          exact absurd hrest.1 (by decide)
      | some m1 =>
        cases b2 with
        | none =>
          exfalso
          simp only [depthKey_data, learnKey_data, breadthKey_data, List.cons_append,
            List.append_assoc, List.nil_append, List.cons.injEq, eq_self_iff_true,
            true_and] at h
          obtain ⟨-, hrest⟩ := natChars_comma_inj n1 n2 _ _ h
          simp only [List.cons.injEq, eq_self_iff_true, true_and] at hrest
          exact absurd hrest.1 (by decide)
        | some m2 =>
          simp only [depthKey_data, learnKey_data, breadthKey_data, List.cons_append,
            List.append_assoc, List.nil_append, List.cons.injEq, eq_self_iff_true,
            true_and] at h
          obtain ⟨hn, hrest⟩ := natChars_comma_inj n1 n2 _ _ h
          simp only [List.cons.injEq, eq_self_iff_true, true_and] at hrest
          obtain ⟨hm, hrest2⟩ := natChars_comma_inj m1 m2 _ _ hrest
          simp only [List.cons.injEq, eq_self_iff_true, true_and] at hrest2
          obtain ⟨hL, hz⟩ := jsonArray_append_inj L1 L2 z1 z2 hrest2
          exact ⟨by rw [hn], by rw [hm], hL, hz⟩

/-- The canonical serialization of the cache-key object is injective in
all four semantic fields. -/
theorem keyObjectChars_inj (q1 q2 : String) (d1 d2 b1 b2 : Option Nat)
    (L1 L2 : List String)
    (h : keyObjectChars q1 d1 b1 L1 = keyObjectChars q2 d2 b2 L2) :
    q1 = q2 ∧ d1 = d2 ∧ b1 = b2 ∧ L1 = L2 := by
  unfold keyObjectChars at h
  simp only [queryKey_data, List.cons_append, List.append_assoc, List.nil_append,
    List.cons.injEq, true_and] at h
  obtain ⟨hq, hrest⟩ := jsonQuote_append_inj q1 q2 _ _ h
  obtain ⟨hd, hb, hL, -⟩ := depthTail_inj d1 d2 b1 b2 L1 L2 ['\x7d'] ['\x7d'] hrest
  exact ⟨hq, hd, hb, hL⟩

theorem stringifyKeyObject_inj (i1 i2 : ToolInput)
    (h : stringifyKeyObject i1 = stringifyKeyObject i2) :
    i1.query = i2.query ∧ i1.depth = i2.depth ∧ i1.breadth = i2.breadth ∧
      i1.existingLearnings = i2.existingLearnings := by
  unfold stringifyKeyObject at h
  exact keyObjectChars_inj _ _ _ _ _ _ _ _ (congrArg String.data h)

/-- C3: the fingerprint is a function of exactly the four semantic
fields - two inputs agreeing on query, depth, breadth and
existingLearnings (whatever their `goal`/`flags` and however the caller
ordered the JSON keys, which the handler's destructuring erases) hash
identically; and two inputs differing in any of those fields have
different canonical serializations, so their SHA-256 fingerprints differ
unless SHA-256 itself collides. -/
theorem hashKey_semantic_determinism_and_injectivity :
    (∀ i1 i2 : ToolInput, i1.query = i2.query → i1.depth = i2.depth →
      i1.breadth = i2.breadth → i1.existingLearnings = i2.existingLearnings →
      hashKey i1 = hashKey i2)
    ∧ (∀ i1 i2 : ToolInput,
      ¬(i1.query = i2.query ∧ i1.depth = i2.depth ∧ i1.breadth = i2.breadth ∧
        i1.existingLearnings = i2.existingLearnings) →
      stringifyKeyObject i1 ≠ stringifyKeyObject i2) := by
  constructor
  · intro i1 i2 hq hd hb hl
    unfold hashKey stringifyKeyObject keyObjectChars
    rw [hq, hd, hb, hl]
  · intro i1 i2 hne heq
    obtain ⟨a, b, c, d⟩ := stringifyKeyObject_inj i1 i2 heq
    exact hne ⟨a, b, c, d⟩

theorem hashKey_semantic_determinism_and_injectivity_witness :
    hashKey ⟨"q", some 2, none, ["x"], some "goal A", none⟩
      = hashKey ⟨"q", some 2, none, ["x"], some "goal B", some ⟨some true, none⟩⟩
    ∧ stringifyKeyObject ⟨"q1", none, none, [], none, none⟩
        ≠ stringifyKeyObject ⟨"q2", none, none, [], none, none⟩ :=
  ⟨hashKey_semantic_determinism_and_injectivity.1
      ⟨"q", some 2, none, ["x"], some "goal A", none⟩
      ⟨"q", some 2, none, ["x"], some "goal B", some ⟨some true, none⟩⟩ rfl rfl rfl rfl,
   hashKey_semantic_determinism_and_injectivity.2
      ⟨"q1", none, none, [], none, none⟩ ⟨"q2", none, none, [], none, none⟩ (by decide)⟩

theorem success_metadata_stats_consistent_witness :
    (handleRun 1000 false [] 0 ⟨"q", none, none, [], none, none⟩
        (.ok ⟨["L1"], ["U1"], none, some "body"⟩) (.ok "") (.ok "u")).result
      = successResult false "q" ⟨["L1"], ["U1"], none, some "body"⟩ (.ok "") (.ok "u") :=
  success_metadata_stats_consistent.1 1000 false [] 0 ⟨"q", none, none, [], none, none⟩
    ⟨["L1"], ["U1"], none, some "body"⟩ (.ok "") (.ok "u") (by decide)

end DeepResearch
